import Mathlib

/-!
Shallow embedding of `cmoyates/rust-sliding-puzzle` (`src/main.rs`).

Modelling conventions:
* `Vector2<i8>` / `Vector2<i32>` become the structure `V2` over `Int`
  (field names `x`, `y` as in SFML's `Vector2`).
* The Rust array `grid : [[i8; 3]; 3]` (indexed `grid[y][x]`) becomes a total
  function `Grid : Int → Int → Int`; only the nine cells with coordinates in
  `0..=2` correspond to array entries, and all theorems speak only about those
  cells (the set `cells`).  An out-of-bounds array access would panic in Rust;
  the embedded functions are only ever applied in-range under the stated
  hypotheses.
* `u32` quantities (`piece_size`, `padding`, `mix_steps`) become `Nat`
  (a `u32` is non-negative by type; the values used are far below `2^32`,
  so wrap-around never occurs).
* The `f32` window positions that appear in comparisons are modelled as `ℚ`;
  every value that actually reaches those comparisons in the program is an
  integer cast to `f32` (exact), and sums of such small integers are exact in
  `f32`, so the rational model agrees with the float computation there.
* `rand::thread_rng().gen_range(0..n)` is modelled by an oracle of natural
  numbers: step `k` draws `oracle k % n` (every value in `0..n` is realised by
  some oracle, and `gen_range` panics on an empty range, modelled by `none`).
-/

namespace SlidingPuzzle

/-- Two-component integer vector, mirroring SFML's `Vector2` as used for grid
coordinates (`Vector2<i8>`) and pixel coordinates (`Vector2<i32>`). -/
structure V2 where
  x : Int
  y : Int
deriving DecidableEq

/-- The 3x3 board `[[i8; 3]; 3]`, as a total function; `g y x` is `grid[y][x]`. -/
def Grid := Int → Int → Int

/-- Read `grid[p.y][p.x]`. -/
def gridGet (g : Grid) (p : V2) : Int := g p.y p.x

/-- Write `grid[p.y][p.x] = v` (functional update). -/
def setCell (g : Grid) (p : V2) (v : Int) : Grid :=
  fun y x => if y = p.y ∧ x = p.x then v else g y x

/-- The nine board positions in the scan order of `m_get_grid_pos`
(`for y_index in 0..3 { for x_index in 0..3 { ... } }`). -/
def scanList : List V2 :=
  [⟨0, 0⟩, ⟨1, 0⟩, ⟨2, 0⟩, ⟨0, 1⟩, ⟨1, 1⟩, ⟨2, 1⟩, ⟨0, 2⟩, ⟨1, 2⟩, ⟨2, 2⟩]

/-- The nine board positions as a finite set. -/
def cells : Finset V2 := scanList.toFinset

/-- Number of cells of the board holding value `v`. -/
def countVal (g : Grid) (v : Int) : Nat :=
  (cells.filter fun p => gridGet g p = v).card

/-- The board invariant of the spec: exactly one `EMPTY` (`-1`) cell and each
tile id `0..7` in exactly one cell. -/
def invariant (g : Grid) : Prop :=
  countVal g (-1) = 1 ∧ ∀ i : Fin 8, countVal g ((i : Nat) : Int) = 1

instance : DecidablePred invariant := fun _ => by
  unfold invariant; infer_instance

/-- Agreement of two boards on the nine array cells (array equality). -/
def gridEq (g h : Grid) : Prop := ∀ p ∈ cells, gridGet g p = gridGet h p

instance (g h : Grid) : Decidable (gridEq g h) := by
  unfold gridEq; infer_instance

/-- The solved board built by `World::new` before shuffling:
`num = i * 3 + j`, replaced by `-1` when it is `8`. -/
def solvedGrid : Grid := fun y x =>
  if 0 ≤ y ∧ y < 3 ∧ 0 ≤ x ∧ x < 3 then (if y * 3 + x = 8 then -1 else y * 3 + x)
  else 0

/-- Embedding of `World::m_get_grid_pos`: scan the board for value `index`; return its
`(x, y)` position, or the sentinel `(-1, -1)` when absent. -/
def m_get_grid_pos (g : Grid) (index : Int) : V2 :=
  (scanList.find? fun p => gridGet g p == index).getD ⟨-1, -1⟩

/-- Embedding of `World::get_available_move`: direction of the single-step move of tile
`index` into the empty cell, or `(0, 0)` when the empty cell is not
orthogonally adjacent.  Checks left, right, up, down in source order. -/
def get_available_move (g : Grid) (index : Int) : V2 :=
  let grid_pos := m_get_grid_pos g index
  if grid_pos.x > 0 ∧ gridGet g ⟨grid_pos.x - 1, grid_pos.y⟩ = -1 then ⟨-1, 0⟩
  else if grid_pos.x < 2 ∧ gridGet g ⟨grid_pos.x + 1, grid_pos.y⟩ = -1 then ⟨1, 0⟩
  else if grid_pos.y > 0 ∧ gridGet g ⟨grid_pos.x, grid_pos.y - 1⟩ = -1 then ⟨0, -1⟩
  else if grid_pos.y < 2 ∧ gridGet g ⟨grid_pos.x, grid_pos.y + 1⟩ = -1 then ⟨0, 1⟩
  else ⟨0, 0⟩

/-- The win check of `World::s_update` (lines 352-368): `win` stays `true`
iff for every `i` in `0..8` the position of tile `i` satisfies
`grid_pos.y * 3 + grid_pos.x == i`. -/
def is_solved (g : Grid) : Bool :=
  (List.range 8).all fun i =>
    let grid_pos := m_get_grid_pos g (i : Int)
    grid_pos.y * 3 + grid_pos.x == (i : Int)

/-- Orthogonal (4-neighbour) adjacency of two board positions. -/
def adjV (a b : V2) : Prop :=
  (a.x = b.x ∧ (a.y = b.y + 1 ∨ a.y = b.y - 1)) ∨
  (a.y = b.y ∧ (a.x = b.x + 1 ∨ a.x = b.x - 1))

instance (a b : V2) : Decidable (adjV a b) := by
  unfold adjV; infer_instance

/-- Candidate list of the shuffle loop in `World::new` (lines 113-130):
positions adjacent to the empty cell `e`, excluding any position whose
relevant coordinate matches `last_swap`.  Push order: left, right, up, down. -/
def adjacent_positions (e last : V2) : List V2 :=
  (if e.x > 0 ∧ last.x ≠ e.x - 1 then [⟨e.x - 1, e.y⟩] else []) ++
  (if e.x < 2 ∧ last.x ≠ e.x + 1 then [⟨e.x + 1, e.y⟩] else []) ++
  (if e.y > 0 ∧ last.y ≠ e.y - 1 then [⟨e.x, e.y - 1⟩] else []) ++
  (if e.y < 2 ∧ last.y ≠ e.y + 1 then [⟨e.x, e.y + 1⟩] else [])

/-- One iteration of the shuffle loop in `World::new` (lines 110-143).
State: `(grid, last_swap)`.  `r` is the oracle draw for this step;
`rng.gen_range(0..len)` panics when `len = 0` (modelled by `none`), otherwise
yields some index `< len`, modelled by `r % len`. -/
def shuffle_step (st : Grid × V2) (r : Nat) : Option (Grid × V2) :=
  let e := m_get_grid_pos st.1 (-1)
  let cands := adjacent_positions e st.2
  if h : cands.length = 0 then none
  else
    let a := cands.get ⟨r % cands.length, Nat.mod_lt _ (Nat.pos_of_ne_zero h)⟩
    let adjacent_index := gridGet st.1 a
    some (setCell (setCell st.1 a (-1)) e adjacent_index, e)

/-- The whole shuffle loop, driven by the list of oracle draws. -/
def mix (st : Grid × V2) : List Nat → Option (Grid × V2)
  | [] => some st
  | r :: rs =>
    match shuffle_step st r with
    | none => none
    | some st' => mix st' rs

/-- The grid produced by `World::new` with `mix_steps` shuffle steps: the
solved board, `last_swap = (0, 0)`, then `mix_steps` shuffle iterations. -/
def world_new_grid (mix_steps : Nat) (oracle : Nat → Nat) : Option (Grid × V2) :=
  mix (solvedGrid, ⟨0, 0⟩) ((List.range mix_steps).map oracle)

/-- The grid mutation of a committed move in `World::s_update`
(release handler): `grid[cur] = -1; grid[cur + d] = grabbed`. -/
def commit_move (g : Grid) (grabbed : Int) (d : V2) : Grid :=
  let cur := m_get_grid_pos g grabbed
  let dest : V2 := ⟨cur.x + d.x, cur.y + d.y⟩
  setCell (setCell g cur (-1)) dest grabbed

/-- Embedding of `World::m_grid_pos_to_px`:
`(index - 1) * (window_size + padding) + center`, per axis. -/
def m_grid_pos_to_px (window_size padding : Nat) (center : V2) (p : V2) : V2 :=
  ⟨(p.x - 1) * ((window_size : Int) + (padding : Int)) + center.x,
   (p.y - 1) * ((window_size : Int) + (padding : Int)) + center.y⟩

/-- A value tracked by the invariant: the empty marker or a tile id. -/
def trackedVal (v : Int) : Prop := v = -1 ∨ (0 ≤ v ∧ v < 8)

/-- The four unit directions the move query can return. -/
def dirList : List V2 := [⟨-1, 0⟩, ⟨1, 0⟩, ⟨0, -1⟩, ⟨0, 1⟩]

/-- The candidate chosen by the oracle draw `r`. -/
def chosen (g : Grid) (last : V2) (r : Nat)
    (h : ¬(adjacent_positions (m_get_grid_pos g (-1)) last).length = 0) : V2 :=
  (adjacent_positions (m_get_grid_pos g (-1)) last).get
    ⟨r % (adjacent_positions (m_get_grid_pos g (-1)) last).length,
     Nat.mod_lt _ (Nat.pos_of_ne_zero h)⟩

/-- Loop invariant of the shuffle: the board invariant holds and `last_swap`
is adjacent to the empty cell (or the loop has not run yet). -/
def mixInv (st : Grid × V2) : Prop :=
  invariant st.1 ∧
    (adjV st.2 (m_get_grid_pos st.1 (-1)) ∨
      (st.2 = ⟨0, 0⟩ ∧ m_get_grid_pos st.1 (-1) = ⟨2, 2⟩))

/-- Exchange of the contents of two cells (used for the single-swap
perturbations of the solved board). -/
def swapCells (g : Grid) (p q : V2) : Grid :=
  setCell (setCell g p (gridGet g q)) q (gridGet g p)

/-- Rust's `i32::clamp` (caller guarantees `lo ≤ hi` by using `min`/`max`). -/
def clampI (v lo hi : Int) : Int := max lo (min v hi)

/-- Release handler of `World::s_update` (lines 199-300) for a grabbed tile
with a legal move `d`: decide whether the drag crossed the midpoint (`moved`),
commit the grid mutation when it did, and set the tile's target position to
the destination cell's pixel location (on commit) or back to the origin
cell's pixel location (otherwise).  `posx`/`posy` are the grabbed window's
`position` (an `f32` pair, modelled exactly in `ℚ`); the third component is
the cleared grab state (`self.grabbed_piece = None`). -/
def release_step (g : Grid) (grabbed : Int) (d : V2) (posx posy : ℚ)
    (piece_size padding : Nat) (center : V2) : Grid × V2 × Option Int :=
  let cur := m_get_grid_pos g grabbed
  let curPx := m_grid_pos_to_px piece_size padding center cur
  let avail : V2 := ⟨cur.x + d.x, cur.y + d.y⟩
  let availPx := m_grid_pos_to_px piece_size padding center avail
  let moved : Bool :=
    if d.x ≠ 0 then
      if d.x > 0 then
        decide (posx > (curPx.x : ℚ) + ((padding / 2 : Nat) : ℚ) + ((piece_size / 2 : Nat) : ℚ))
      else
        decide (posx < (curPx.x : ℚ) - ((padding / 2 : Nat) : ℚ) - ((piece_size / 2 : Nat) : ℚ))
    else
      if d.y > 0 then
        decide (posy > (curPx.y : ℚ) + ((padding / 2 : Nat) : ℚ) + ((piece_size / 2 : Nat) : ℚ))
      else
        decide (posy < (curPx.y : ℚ) - ((padding / 2 : Nat) : ℚ) - ((piece_size / 2 : Nat) : ℚ))
  let grid' := if moved then setCell (setCell g cur (-1)) avail grabbed else g
  let target := if moved then availPx else curPx
  (grid', target, none)

/-- The claim's midpoint test, written as in the spec: the displacement of
the tile along the move direction exceeds half the tile size plus half the
padding (halves computed with the source's `u32` integer division). -/
def crossedMidpointSpec (d : V2) (curPx : V2) (posx posy : ℚ)
    (piece_size padding : Nat) : Prop :=
  (d.x : ℚ) * (posx - (curPx.x : ℚ)) + (d.y : ℚ) * (posy - (curPx.y : ℚ)) >
    ((piece_size / 2 : Nat) : ℚ) + ((padding / 2 : Nat) : ℚ)

instance (d curPx : V2) (posx posy : ℚ) (s p : Nat) :
    Decidable (crossedMidpointSpec d curPx posx posy s p) := by
  unfold crossedMidpointSpec; infer_instance

/-- Per-frame drag update of `World::s_update` (lines 311-348) for a grabbed
tile with legal move `d`: clamp the pointer position (minus the grab offset)
to the segment between the origin cell and the destination cell on the move
axis, and pin the orthogonal coordinate to the tile's current cell. -/
def drag_update (g : Grid) (grabbed : Int) (d : V2) (mouse_position grab_offset : V2)
    (piece_size padding : Nat) (center : V2) : V2 :=
  let cur := m_get_grid_pos g grabbed
  let curPx := m_grid_pos_to_px piece_size padding center cur
  let avail : V2 := ⟨cur.x + d.x, cur.y + d.y⟩
  let availPx := m_grid_pos_to_px piece_size padding center avail
  let new_x := if d.x ≠ 0 then
      clampI (mouse_position.x - grab_offset.x) (min curPx.x availPx.x) (max curPx.x availPx.x)
    else curPx.x
  let new_y := if d.y ≠ 0 then
      clampI (mouse_position.y - grab_offset.y) (min curPx.y availPx.y) (max curPx.y availPx.y)
    else curPx.y
  ⟨new_x, new_y⟩

/-- Embedding of `lazy_smoothing` (lines 530-536): snap to the target when within the
threshold, otherwise move 15% of the remaining distance.  The `f32`
arithmetic is modelled exactly over `ℚ`. -/
def lazy_smoothing (current target threshold : ℚ) : ℚ :=
  if |current - target| < threshold then target
  else current + (target - current) * (0.15 : ℚ)

/-- Iterating `lazy_smoothing (·) 100 0.1` starting from `0`. -/
def smoothIter : Nat → ℚ
  | 0 => 0
  | n + 1 => lazy_smoothing (smoothIter n) 100 (0.1 : ℚ)

/-! ### Basic lemmas about the board representation -/

lemma mem_cells {p : V2} : p ∈ cells ↔ 0 ≤ p.x ∧ p.x < 3 ∧ 0 ≤ p.y ∧ p.y < 3 := by
  obtain ⟨px, py⟩ := p
  simp only [cells, scanList, List.mem_toFinset, List.mem_cons, List.not_mem_nil,
    or_false, V2.mk.injEq]
  omega

lemma scanList_subset_cells {p : V2} (hp : p ∈ scanList) : p ∈ cells :=
  List.mem_toFinset.mpr hp

lemma gridGet_setCell_self (g : Grid) (p : V2) (v : Int) :
    gridGet (setCell g p v) p = v := by
  simp [gridGet, setCell]

lemma gridGet_setCell_ne (g : Grid) (p q : V2) (v : Int) (h : q ≠ p) :
    gridGet (setCell g p v) q = gridGet g q := by
  obtain ⟨px, py⟩ := p
  obtain ⟨qx, qy⟩ := q
  simp only [gridGet, setCell]
  by_cases hy : qy = py
  · by_cases hx : qx = px
    · exact absurd (by rw [hx, hy]) h
    · simp [hx]
  · simp [hy]

lemma find_eq_of_pred_unique {α} (l : List α) (p : α → Bool) (a : α) (ha : a ∈ l)
    (hpa : p a = true) (hu : ∀ b ∈ l, p b = true → b = a) : l.find? p = some a := by
  induction l with
  | nil => cases ha
  | cons hd tl ih =>
    by_cases h : p hd = true
    · rw [List.find?_cons_of_pos _ h]
      exact congrArg some (hu hd (List.mem_cons_self _ _) h)
    · rw [List.find?_cons_of_neg _ (by simpa using h)]
      have hne : hd ≠ a := fun e => h (e ▸ hpa)
      have ha' : a ∈ tl := by
        rcases List.mem_cons.mp ha with h1 | h1
        · exact absurd h1.symm hne
        · exact h1
      exact ih ha' fun b hb hpb => hu b (List.mem_cons_of_mem _ hb) hpb

lemma find_congr_on {α} (l : List α) (p q : α → Bool) (h : ∀ a ∈ l, p a = q a) :
    l.find? p = l.find? q := by
  induction l with
  | nil => rfl
  | cons hd tl ih =>
    have hhd := h hd (List.mem_cons_self _ _)
    by_cases hp : p hd = true
    · rw [List.find?_cons_of_pos _ hp, List.find?_cons_of_pos _ (hhd ▸ hp)]
    · rw [List.find?_cons_of_neg _ (by simpa using hp),
        List.find?_cons_of_neg _ (by simp [← hhd]; simpa using hp)]
      exact ih fun a ha => h a (List.mem_cons_of_mem _ ha)

lemma countVal_eq_one (g : Grid) (hg : invariant g) (v : Int) (hv : trackedVal v) :
    countVal g v = 1 := by
  rcases hv with h | ⟨h0, h8⟩
  · exact h ▸ hg.1
  · have := hg.2 ⟨v.toNat, by omega⟩
    simpa [Int.toNat_of_nonneg h0] using this

/-- Under the invariant, a tracked value sits in exactly one cell, and
`m_get_grid_pos` finds that cell. -/
lemma posOf_spec (g : Grid) (hg : invariant g) (v : Int) (hv : trackedVal v) :
    m_get_grid_pos g v ∈ cells ∧ gridGet g (m_get_grid_pos g v) = v ∧
      ∀ q ∈ cells, gridGet g q = v → q = m_get_grid_pos g v := by
  have hcount : countVal g v = 1 := countVal_eq_one g hg v hv
  obtain ⟨a, ha⟩ := Finset.card_eq_one.mp hcount
  have hmem : a ∈ cells.filter fun p => gridGet g p = v := ha ▸ Finset.mem_singleton_self a
  have haC : a ∈ cells := (Finset.mem_filter.mp hmem).1
  have haV : gridGet g a = v := (Finset.mem_filter.mp hmem).2
  have huniq : ∀ q ∈ cells, gridGet g q = v → q = a := by
    intro q hq hqv
    have : q ∈ cells.filter fun p => gridGet g p = v := Finset.mem_filter.mpr ⟨hq, hqv⟩
    simpa [ha] using this
  have hfind : scanList.find? (fun p => gridGet g p == v) = some a := by
    apply find_eq_of_pred_unique
    · exact List.mem_toFinset.mp haC
    · simpa using haV
    · intro b hb hpb
      exact huniq b (scanList_subset_cells hb) (by simpa using hpb)
  have : m_get_grid_pos g v = a := by
    simp [m_get_grid_pos, hfind]
  rw [this]
  exact ⟨haC, haV, huniq⟩

/-- Under the invariant, a cell holds `-1` iff it is the empty cell found by
`m_get_grid_pos`. -/
lemma empty_iff (g : Grid) (hg : invariant g) (q : V2) (hq : q ∈ cells) :
    gridGet g q = -1 ↔ q = m_get_grid_pos g (-1) := by
  obtain ⟨he, hge, hu⟩ := posOf_spec g hg (-1) (Or.inl rfl)
  constructor
  · exact fun h => hu q hq h
  · rintro rfl; exact hge

lemma swap_mem_cells {a b p : V2} (ha : a ∈ cells) (hb : b ∈ cells) (hp : p ∈ cells) :
    Equiv.swap a b p ∈ cells := by
  rcases eq_or_ne p a with rfl | hpa
  · rwa [Equiv.swap_apply_left]
  · rcases eq_or_ne p b with rfl | hpb
    · rwa [Equiv.swap_apply_right]
    · rwa [Equiv.swap_apply_of_ne_of_ne hpa hpb]

/-- Exchanging the contents of two distinct cells leaves all value counts
unchanged. -/
lemma countVal_swap (g : Grid) (a b : V2) (ha : a ∈ cells) (hb : b ∈ cells)
    (hne : a ≠ b) (v : Int) :
    countVal (setCell (setCell g a (gridGet g b)) b (gridGet g a)) v = countVal g v := by
  classical
  set g' := setCell (setCell g a (gridGet g b)) b (gridGet g a) with hg'
  have key : ∀ p, gridGet g' p = gridGet g (Equiv.swap a b p) := by
    intro p
    rcases eq_or_ne p b with rfl | hpb
    · rw [Equiv.swap_apply_right, hg', gridGet_setCell_self]
    · rcases eq_or_ne p a with rfl | hpa
      · rw [Equiv.swap_apply_left, hg', gridGet_setCell_ne _ _ _ _ hpb,
          gridGet_setCell_self]
      · rw [Equiv.swap_apply_of_ne_of_ne hpa hpb, hg',
          gridGet_setCell_ne _ _ _ _ hpb, gridGet_setCell_ne _ _ _ _ hpa]
  unfold countVal
  apply Finset.card_bij' (fun p _ => Equiv.swap a b p) (fun p _ => Equiv.swap a b p)
  · intro p hp
    have hpc := (Finset.mem_filter.mp hp).1
    have hpv := (Finset.mem_filter.mp hp).2
    exact Finset.mem_filter.mpr ⟨swap_mem_cells ha hb hpc, by rw [← key]; exact hpv⟩
  · intro p hp
    have hpc := (Finset.mem_filter.mp hp).1
    have hpv := (Finset.mem_filter.mp hp).2
    refine Finset.mem_filter.mpr ⟨swap_mem_cells ha hb hpc, ?_⟩
    rw [key, Equiv.swap_apply_self]
    exact hpv
  · intro p _; exact Equiv.swap_apply_self _ _ _
  · intro p _; exact Equiv.swap_apply_self _ _ _

lemma invariant_swap (g : Grid) (a b : V2) (ha : a ∈ cells) (hb : b ∈ cells)
    (hne : a ≠ b) (hg : invariant g) :
    invariant (setCell (setCell g a (gridGet g b)) b (gridGet g a)) := by
  constructor
  · rw [countVal_swap g a b ha hb hne]; exact hg.1
  · intro i; rw [countVal_swap g a b ha hb hne]; exact hg.2 i

lemma v2ext {a b : V2} (hx : a.x = b.x) (hy : a.y = b.y) : a = b := by
  cases a; cases b; cases hx; cases hy; rfl

/-! ### Characterisation of the legal-move query -/

lemma availMove_cases (g : Grid) (i : Int) :
    get_available_move g i = ⟨0, 0⟩ ∨ get_available_move g i ∈ dirList := by
  have h : get_available_move g i =
      (let grid_pos := m_get_grid_pos g i
       if grid_pos.x > 0 ∧ gridGet g ⟨grid_pos.x - 1, grid_pos.y⟩ = -1 then ⟨-1, 0⟩
       else if grid_pos.x < 2 ∧ gridGet g ⟨grid_pos.x + 1, grid_pos.y⟩ = -1 then ⟨1, 0⟩
       else if grid_pos.y > 0 ∧ gridGet g ⟨grid_pos.x, grid_pos.y - 1⟩ = -1 then ⟨0, -1⟩
       else if grid_pos.y < 2 ∧ gridGet g ⟨grid_pos.x, grid_pos.y + 1⟩ = -1 then ⟨0, 1⟩
       else ⟨0, 0⟩) := rfl
  rw [h]
  simp only [dirList, List.mem_cons]
  split_ifs <;> simp

/-- Under the invariant, `get_available_move` returns a nonzero direction iff
the empty cell is orthogonally adjacent to the tile's cell; the nonzero
direction is a unit axis step pointing from the tile's cell to the empty
cell. -/
lemma avail_spec (g : Grid) (hg : invariant g) (t : Int) (h0 : 0 ≤ t) (h8 : t < 8) :
    (get_available_move g t ≠ ⟨0, 0⟩ ↔
      adjV (m_get_grid_pos g t) (m_get_grid_pos g (-1))) ∧
    (get_available_move g t ≠ ⟨0, 0⟩ →
      get_available_move g t ∈ dirList ∧
      (⟨(m_get_grid_pos g t).x + (get_available_move g t).x,
        (m_get_grid_pos g t).y + (get_available_move g t).y⟩ : V2) =
        m_get_grid_pos g (-1)) := by
  obtain ⟨hp, hgp, hpu⟩ := posOf_spec g hg t (Or.inr ⟨h0, h8⟩)
  obtain ⟨he, hge, heu⟩ := posOf_spec g hg (-1) (Or.inl rfl)
  set p := m_get_grid_pos g t with hpdef
  set e := m_get_grid_pos g (-1) with hedef
  have hpb := mem_cells.mp hp
  have heb := mem_cells.mp he
  have hunfold : get_available_move g t =
      (if p.x > 0 ∧ gridGet g ⟨p.x - 1, p.y⟩ = -1 then ⟨-1, 0⟩
       else if p.x < 2 ∧ gridGet g ⟨p.x + 1, p.y⟩ = -1 then ⟨1, 0⟩
       else if p.y > 0 ∧ gridGet g ⟨p.x, p.y - 1⟩ = -1 then ⟨0, -1⟩
       else if p.y < 2 ∧ gridGet g ⟨p.x, p.y + 1⟩ = -1 then ⟨0, 1⟩
       else ⟨0, 0⟩) := rfl
  rw [hunfold]
  split_ifs with h1 h2 h3 h4
  · have heq : (⟨p.x - 1, p.y⟩ : V2) = e := by
      refine (empty_iff g hg _ ?_).mp h1.2
      exact mem_cells.mpr (by dsimp only; omega)
    refine ⟨⟨fun _ => ?_, fun _ => by decide⟩, fun _ => ⟨by decide, ?_⟩⟩
    · rw [← heq]; exact Or.inr ⟨rfl, Or.inl (by dsimp only; omega)⟩
    · rw [← heq]; refine v2ext ?_ ?_ <;> dsimp only <;> omega
  · have heq : (⟨p.x + 1, p.y⟩ : V2) = e := by
      refine (empty_iff g hg _ ?_).mp h2.2
      exact mem_cells.mpr (by dsimp only; omega)
    refine ⟨⟨fun _ => ?_, fun _ => by decide⟩, fun _ => ⟨by decide, ?_⟩⟩
    · rw [← heq]; exact Or.inr ⟨rfl, Or.inr (by dsimp only; omega)⟩
    · rw [← heq]; refine v2ext ?_ ?_ <;> dsimp only <;> omega
  · have heq : (⟨p.x, p.y - 1⟩ : V2) = e := by
      refine (empty_iff g hg _ ?_).mp h3.2
      exact mem_cells.mpr (by dsimp only; omega)
    refine ⟨⟨fun _ => ?_, fun _ => by decide⟩, fun _ => ⟨by decide, ?_⟩⟩
    · rw [← heq]; exact Or.inl ⟨rfl, Or.inl (by dsimp only; omega)⟩
    · rw [← heq]; refine v2ext ?_ ?_ <;> dsimp only <;> omega
  · have heq : (⟨p.x, p.y + 1⟩ : V2) = e := by
      refine (empty_iff g hg _ ?_).mp h4.2
      exact mem_cells.mpr (by dsimp only; omega)
    refine ⟨⟨fun _ => ?_, fun _ => by decide⟩, fun _ => ⟨by decide, ?_⟩⟩
    · rw [← heq]; exact Or.inl ⟨rfl, Or.inr (by dsimp only; omega)⟩
    · rw [← heq]; refine v2ext ?_ ?_ <;> dsimp only <;> omega
  · refine ⟨iff_of_false (fun h => h rfl) ?_, fun h => absurd rfl h⟩
    rintro (⟨hx, hy | hy⟩ | ⟨hy, hx | hx⟩)
    · exact h3 ⟨by omega, by
        have heq : (⟨p.x, p.y - 1⟩ : V2) = e := v2ext (by dsimp only; omega) (by dsimp only; omega)
        rw [heq]; exact hge⟩
    · exact h4 ⟨by omega, by
        have heq : (⟨p.x, p.y + 1⟩ : V2) = e := v2ext (by dsimp only; omega) (by dsimp only; omega)
        rw [heq]; exact hge⟩
    · exact h1 ⟨by omega, by
        have heq : (⟨p.x - 1, p.y⟩ : V2) = e := v2ext (by dsimp only; omega) (by dsimp only; omega)
        rw [heq]; exact hge⟩
    · exact h2 ⟨by omega, by
        have heq : (⟨p.x + 1, p.y⟩ : V2) = e := v2ext (by dsimp only; omega) (by dsimp only; omega)
        rw [heq]; exact hge⟩

/-! ### The shuffle loop -/

lemma adjV_symm {a b : V2} (h : adjV a b) : adjV b a := by
  unfold adjV at h ⊢; omega

lemma adjV_ne {a b : V2} (h : adjV a b) : a ≠ b := by
  intro heq; subst heq; unfold adjV at h; omega

/-- Every candidate of a shuffle step is adjacent to the empty cell, differs
from `last_swap`, and is on the board whenever the empty cell is. -/
lemma cands_mem {e last c : V2} (hc : c ∈ adjacent_positions e last) :
    c ≠ last ∧ adjV c e ∧ (e ∈ cells → c ∈ cells) := by
  unfold adjacent_positions at hc
  simp only [List.mem_append] at hc
  rcases hc with ((hc | hc) | hc) | hc
  · split_ifs at hc with h
    · simp only [List.mem_cons, List.not_mem_nil, or_false] at hc
      subst hc
      refine ⟨fun heq => h.2 (by rw [← heq]), Or.inr ⟨rfl, Or.inr rfl⟩, fun he => ?_⟩
      have := mem_cells.mp he
      exact mem_cells.mpr (by dsimp only; omega)
    · cases hc
  · split_ifs at hc with h
    · simp only [List.mem_cons, List.not_mem_nil, or_false] at hc
      subst hc
      refine ⟨fun heq => h.2 (by rw [← heq]), Or.inr ⟨rfl, Or.inl rfl⟩, fun he => ?_⟩
      have := mem_cells.mp he
      exact mem_cells.mpr (by dsimp only; omega)
    · cases hc
  · split_ifs at hc with h
    · simp only [List.mem_cons, List.not_mem_nil, or_false] at hc
      subst hc
      refine ⟨fun heq => h.2 (by rw [← heq]), Or.inl ⟨rfl, Or.inr rfl⟩, fun he => ?_⟩
      have := mem_cells.mp he
      exact mem_cells.mpr (by dsimp only; omega)
    · cases hc
  · split_ifs at hc with h
    · simp only [List.mem_cons, List.not_mem_nil, or_false] at hc
      subst hc
      refine ⟨fun heq => h.2 (by rw [← heq]), Or.inl ⟨rfl, Or.inl rfl⟩, fun he => ?_⟩
      have := mem_cells.mp he
      exact mem_cells.mpr (by dsimp only; omega)
    · cases hc

/-- The candidate list is never empty: when the previous empty cell is
adjacent to the current one (or in the initial configuration), at least one
neighbour of the empty cell survives the exclusion. -/
lemma cands_ne_nil {e last : V2} (he : e ∈ cells)
    (h : adjV last e ∨ (last = ⟨0, 0⟩ ∧ e = ⟨2, 2⟩)) :
    adjacent_positions e last ≠ [] := by
  intro hnil
  unfold adjacent_positions at hnil
  rw [List.append_eq_nil, List.append_eq_nil, List.append_eq_nil] at hnil
  obtain ⟨⟨⟨n1, n2⟩, n3⟩, n4⟩ := hnil
  have c1 : ¬(e.x > 0 ∧ last.x ≠ e.x - 1) := fun hc => by rw [if_pos hc] at n1; cases n1
  have c2 : ¬(e.x < 2 ∧ last.x ≠ e.x + 1) := fun hc => by rw [if_pos hc] at n2; cases n2
  have c3 : ¬(e.y > 0 ∧ last.y ≠ e.y - 1) := fun hc => by rw [if_pos hc] at n3; cases n3
  have c4 : ¬(e.y < 2 ∧ last.y ≠ e.y + 1) := fun hc => by rw [if_pos hc] at n4; cases n4
  have heb := mem_cells.mp he
  rcases h with hadj | ⟨h00, h22⟩
  · unfold adjV at hadj; omega
  · have hlx : last.x = 0 := by rw [h00]
    have hly : last.y = 0 := by rw [h00]
    have hex : e.x = 2 := by rw [h22]
    have hey : e.y = 2 := by rw [h22]
    omega

lemma chosen_mem (g : Grid) (last : V2) (r : Nat)
    (h : ¬(adjacent_positions (m_get_grid_pos g (-1)) last).length = 0) :
    chosen g last r h ∈ adjacent_positions (m_get_grid_pos g (-1)) last :=
  List.get_mem _ _ _

lemma shuffle_step_eq (g : Grid) (last : V2) (r : Nat)
    (h : ¬(adjacent_positions (m_get_grid_pos g (-1)) last).length = 0) :
    shuffle_step (g, last) r = some
      (setCell (setCell g (chosen g last r h) (-1)) (m_get_grid_pos g (-1))
        (gridGet g (chosen g last r h)), m_get_grid_pos g (-1)) := by
  unfold shuffle_step chosen
  rw [dif_neg h]

/-- A successful shuffle step records the old empty cell as `last_swap`,
preserves the board invariant, and moves the empty cell to the chosen
candidate. -/
lemma shuffle_step_some {g : Grid} {last : V2} {r : Nat} {g' : Grid} {l' : V2}
    (hg : invariant g)
    (hstep : shuffle_step (g, last) r = some (g', l')) :
    l' = m_get_grid_pos g (-1) ∧ invariant g' ∧
      m_get_grid_pos g' (-1) ∈ adjacent_positions (m_get_grid_pos g (-1)) last := by
  obtain ⟨he, hge, heu⟩ := posOf_spec g hg (-1) (Or.inl rfl)
  by_cases hlen : (adjacent_positions (m_get_grid_pos g (-1)) last).length = 0
  · rw [shuffle_step, dif_pos hlen] at hstep
    cases hstep
  · rw [shuffle_step_eq g last r hlen] at hstep
    have hpair := Option.some.inj hstep
    obtain ⟨hg'eq, hl'eq⟩ := Prod.ext_iff.mp hpair
    subst hg'eq
    subst hl'eq
    obtain ⟨hane_last, hadj, hcellsimp⟩ := cands_mem (chosen_mem g last r hlen)
    have hane : chosen g last r hlen ≠ m_get_grid_pos g (-1) := adjV_ne hadj
    have hacells : chosen g last r hlen ∈ cells := hcellsimp he
    have hinv' : invariant (setCell (setCell g (chosen g last r hlen) (-1))
        (m_get_grid_pos g (-1)) (gridGet g (chosen g last r hlen))) := by
      have h := invariant_swap g (chosen g last r hlen) (m_get_grid_pos g (-1))
        hacells he hane hg
      rw [hge] at h
      exact h
    refine ⟨rfl, hinv', ?_⟩
    have hga' : gridGet (setCell (setCell g (chosen g last r hlen) (-1))
        (m_get_grid_pos g (-1)) (gridGet g (chosen g last r hlen)))
        (chosen g last r hlen) = -1 := by
      rw [gridGet_setCell_ne _ _ _ _ hane, gridGet_setCell_self]
    obtain ⟨_, _, hu'⟩ := posOf_spec _ hinv' (-1) (Or.inl rfl)
    have : chosen g last r hlen = m_get_grid_pos (setCell (setCell g
        (chosen g last r hlen) (-1)) (m_get_grid_pos g (-1))
        (gridGet g (chosen g last r hlen))) (-1) :=
      hu' _ hacells hga'
    rw [← this]
    exact chosen_mem g last r hlen

lemma mixInv_init : mixInv (solvedGrid, ⟨0, 0⟩) :=
  ⟨by decide, Or.inr ⟨rfl, by decide⟩⟩

/-- Under the loop invariant every shuffle step succeeds and re-establishes
the loop invariant. -/
lemma shuffle_step_total (st : Grid × V2) (r : Nat) (h : mixInv st) :
    ∃ st', shuffle_step st r = some st' ∧ mixInv st' := by
  obtain ⟨g, last⟩ := st
  obtain ⟨hg, hlast⟩ := h
  obtain ⟨he, hge, heu⟩ := posOf_spec g hg (-1) (Or.inl rfl)
  have hnil : adjacent_positions (m_get_grid_pos g (-1)) last ≠ [] := by
    refine cands_ne_nil he ?_
    simpa using hlast
  have hlen : ¬(adjacent_positions (m_get_grid_pos g (-1)) last).length = 0 := by
    simpa [List.length_eq_zero] using hnil
  refine ⟨_, shuffle_step_eq g last r hlen, ?_⟩
  have hsome := shuffle_step_eq g last r hlen
  obtain ⟨hl', hinv', hmem'⟩ := shuffle_step_some hg hsome
  obtain ⟨_, hadj', _⟩ := cands_mem hmem'
  exact ⟨hinv', Or.inl (adjV_symm hadj')⟩

/-- Under the loop invariant the whole shuffle loop succeeds and returns a
state satisfying the loop invariant. -/
lemma mix_some (l : List Nat) (st : Grid × V2) (h : mixInv st) :
    ∃ st', mix st l = some st' ∧ mixInv st' := by
  induction l generalizing st with
  | nil => exact ⟨st, rfl, h⟩
  | cons r rs ih =>
    obtain ⟨st1, hstep, h1⟩ := shuffle_step_total st r h
    obtain ⟨st', hmix, h'⟩ := ih st1 h1
    exact ⟨st', by rw [mix, hstep]; exact hmix, h'⟩

/-- Every grid produced by `World::new` satisfies the board invariant. -/
lemma world_new_grid_invariant (n : Nat) (oracle : Nat → Nat) (g : Grid) (l : V2)
    (h : world_new_grid n oracle = some (g, l)) : invariant g := by
  obtain ⟨st', hmix, hinv⟩ := mix_some ((List.range n).map oracle) _ mixInv_init
  rw [world_new_grid, hmix] at h
  obtain rfl : st' = (g, l) := Option.some.inj h
  exact hinv.1

/-! ### The win check -/

lemma is_solved_iff (g : Grid) :
    is_solved g = true ↔ ∀ i : Int, 0 ≤ i → i < 8 →
      (m_get_grid_pos g i).y * 3 + (m_get_grid_pos g i).x = i := by
  unfold is_solved
  rw [List.all_eq_true]
  constructor
  · intro h i h0 h8
    have hm : i.toNat ∈ List.range 8 := by rw [List.mem_range]; omega
    have := h i.toNat hm
    simp only [beq_iff_eq] at this
    rwa [Int.toNat_of_nonneg h0] at this
  · intro h i hi
    rw [List.mem_range] at hi
    simp only [beq_iff_eq]
    exact h i (by omega) (by omega)

lemma cell_index_inj {p q : V2} (hp : p ∈ cells) (hq : q ∈ cells)
    (h : p.y * 3 + p.x = q.y * 3 + q.x) : p = q := by
  have h1 := mem_cells.mp hp
  have h2 := mem_cells.mp hq
  exact v2ext (by omega) (by omega)

/-- Under the board invariant, the win check succeeds exactly on the solved
arrangement. -/
lemma is_solved_eq_solvedGrid (g : Grid) (hg : invariant g) :
    is_solved g = true ↔ gridEq g solvedGrid := by
  constructor
  · intro h
    rw [is_solved_iff] at h
    intro q hq
    have hqb := mem_cells.mp hq
    by_cases hq22 : q = (⟨2, 2⟩ : V2)
    · subst hq22
      obtain ⟨he, hge, heu⟩ := posOf_spec g hg (-1) (Or.inl rfl)
      have heb := mem_cells.mp he
      have he22 : m_get_grid_pos g (-1) = (⟨2, 2⟩ : V2) := by
        by_contra hne
        have hne' : ¬((m_get_grid_pos g (-1)).x = 2 ∧ (m_get_grid_pos g (-1)).y = 2) :=
          fun hc => hne (v2ext hc.1 hc.2)
        set j : Int := (m_get_grid_pos g (-1)).y * 3 + (m_get_grid_pos g (-1)).x with hj
        have hjb : 0 ≤ j ∧ j < 8 := by omega
        obtain ⟨hpj, hgpj, _⟩ := posOf_spec g hg j (Or.inr hjb)
        have hidx := h j hjb.1 hjb.2
        have : m_get_grid_pos g j = m_get_grid_pos g (-1) :=
          cell_index_inj hpj he (by omega)
        rw [this, hge] at hgpj
        omega
      have hsv : gridGet solvedGrid (⟨2, 2⟩ : V2) = -1 := by decide
      rw [hsv, ← he22]
      exact hge
    · have hne' : ¬(q.x = 2 ∧ q.y = 2) := fun hc => hq22 (v2ext hc.1 hc.2)
      set j : Int := q.y * 3 + q.x with hj
      have hjb : 0 ≤ j ∧ j < 8 := by omega
      obtain ⟨hpj, hgpj, _⟩ := posOf_spec g hg j (Or.inr hjb)
      have hidx := h j hjb.1 hjb.2
      have hpq : m_get_grid_pos g j = q := cell_index_inj hpj hq (by omega)
      have hsv : gridGet solvedGrid q = q.y * 3 + q.x := by
        unfold gridGet solvedGrid
        rw [if_pos (by omega), if_neg (by omega)]
      rw [hsv, ← hpq, hidx]
      exact hgpj
  · intro heq
    have hcongr : ∀ v : Int, m_get_grid_pos g v = m_get_grid_pos solvedGrid v := by
      intro v
      unfold m_get_grid_pos
      rw [find_congr_on scanList (fun p => gridGet g p == v)
        (fun p => gridGet solvedGrid p == v) fun p hp => by
          show (gridGet g p == v) = (gridGet solvedGrid p == v)
          rw [heq p (scanList_subset_cells hp)]]
    rw [is_solved_iff]
    intro i h0 h8
    rw [hcongr i]
    interval_cases i <;> decide

/-! ### Committed moves -/

lemma commit_preserves (g : Grid) (t : Int) (d : V2) (hg : invariant g)
    (h0 : 0 ≤ t) (h8 : t < 8) (hd : get_available_move g t = d) (hnz : d ≠ ⟨0, 0⟩) :
    invariant (commit_move g t d) := by
  obtain ⟨hiff, himp⟩ := avail_spec g hg t h0 h8
  rw [hd] at himp
  obtain ⟨hdir, hpt⟩ := himp hnz
  obtain ⟨hp, hgp, hpu⟩ := posOf_spec g hg t (Or.inr ⟨h0, h8⟩)
  obtain ⟨he, hge, heu⟩ := posOf_spec g hg (-1) (Or.inl rfl)
  have hne : m_get_grid_pos g t ≠ m_get_grid_pos g (-1) := by
    intro hcontra
    rw [hcontra, hge] at hgp
    omega
  show invariant (setCell (setCell g (m_get_grid_pos g t) (-1))
    ⟨(m_get_grid_pos g t).x + d.x, (m_get_grid_pos g t).y + d.y⟩ t)
  rw [hpt]
  have h := invariant_swap g (m_get_grid_pos g t) (m_get_grid_pos g (-1)) hp he hne hg
  rw [hge, hgp] at h
  exact h

/-! ### Smoothing -/

lemma lazy_snap (cur tgt thr : ℚ) (h : |cur - tgt| < thr) :
    lazy_smoothing cur tgt thr = tgt := by
  rw [lazy_smoothing, if_pos h]

/-- Closed form of the smoothing iteration while no snap has occurred. -/
lemma smoothIter_closed : ∀ n : Nat, n ≤ 43 →
    smoothIter n = 100 - 100 * (17 / 20 : ℚ) ^ n := by
  intro n
  induction n with
  | zero => intro _; norm_num [smoothIter]
  | succ k ih =>
    intro hk
    have hkk : k ≤ 42 := by omega
    rw [smoothIter, ih (by omega), lazy_smoothing, if_neg ?_]
    · rw [pow_succ]; ring
    · have h1 : (17 / 20 : ℚ) ^ 42 ≤ (17 / 20 : ℚ) ^ k :=
        pow_le_pow_of_le_one (by norm_num) (by norm_num) hkk
      have h2 : (1 / 1000 : ℚ) ≤ (17 / 20 : ℚ) ^ 42 := by norm_num
      intro habs
      rw [show (100 : ℚ) - 100 * (17 / 20 : ℚ) ^ k - 100 =
          -(100 * (17 / 20 : ℚ) ^ k) from by ring, abs_neg,
        abs_of_nonneg (by positivity)] at habs
      norm_num at habs
      linarith

lemma smoothIter_44 : smoothIter 44 = (100 : ℚ) := by
  rw [show (44 : Nat) = 43 + 1 from rfl, smoothIter,
    smoothIter_closed 43 (le_refl _), lazy_snap]
  rw [show (100 : ℚ) - 100 * (17 / 20 : ℚ) ^ 43 - 100 =
      -(100 * (17 / 20 : ℚ) ^ 43) from by ring, abs_neg,
    abs_of_nonneg (by positivity)]
  norm_num

lemma smoothIter_strict : ∀ n : Nat, n < 44 → smoothIter n < smoothIter (n + 1) := by
  intro n hn
  rcases Nat.lt_or_ge n 43 with h | h
  · rw [smoothIter_closed n (by omega), smoothIter_closed (n + 1) (by omega)]
    have hpos : (0 : ℚ) < (17 / 20 : ℚ) ^ n := by positivity
    rw [pow_succ]
    nlinarith
  · have h43 : n = 43 := by omega
    subst h43
    rw [smoothIter_44, smoothIter_closed 43 (le_refl _)]
    have hpos : (0 : ℚ) < (17 / 20 : ℚ) ^ 43 := by positivity
    linarith

/-! ### Claim theorems -/

/-- Claim C1: for every shuffle-step count `n ≥ 0`, the grid produced by
initialization contains the EMPTY marker `-1` in exactly one cell and each
tile id `0..7` in exactly one cell, and every committed move (grid mutation
of a release past the midpoint, whose direction comes from the legal-move
query) preserves this property. -/
theorem claim_C1 :
    (∀ (n : Nat) (oracle : Nat → Nat) (g : Grid) (l : V2),
      world_new_grid n oracle = some (g, l) → invariant g) ∧
    (∀ (g : Grid) (t : Int) (d : V2), invariant g → 0 ≤ t → t < 8 →
      get_available_move g t = d → d ≠ ⟨0, 0⟩ → invariant (commit_move g t d)) :=
  ⟨world_new_grid_invariant,
   fun g t d hg h0 h8 hd hnz => commit_preserves g t d hg h0 h8 hd hnz⟩

theorem claim_C1_witness :
    invariant solvedGrid ∧ invariant (commit_move solvedGrid 5 ⟨0, 1⟩) :=
  ⟨claim_C1.1 0 (fun _ => 0) solvedGrid ⟨0, 0⟩ rfl,
   claim_C1.2 solvedGrid 5 ⟨0, 1⟩ (by decide) (by decide) (by decide) (by decide)
     (by decide)⟩

/-- Claim C2: on pointer release while a tile is grabbed with a legal move
direction, if the tile's position along the move axis has crossed the
midpoint (origin-cell pixel position plus half tile size plus half padding,
in the direction of the move) then the grid is updated (origin cell to
EMPTY, destination cell to the tile id) and the target position is the
destination cell's pixel location; otherwise the grid is unchanged and the
target position reverts to the origin cell's pixel location; in both cases
the grabbed state is cleared (`none`). -/
theorem claim_C2 (g : Grid) (t : Int) (d : V2) (posx posy : ℚ) (s p : Nat) (c : V2)
    (hd : get_available_move g t = d) (hnz : d ≠ ⟨0, 0⟩) :
    (crossedMidpointSpec d (m_grid_pos_to_px s p c (m_get_grid_pos g t)) posx posy s p →
      release_step g t d posx posy s p c =
        (commit_move g t d,
         m_grid_pos_to_px s p c
           ⟨(m_get_grid_pos g t).x + d.x, (m_get_grid_pos g t).y + d.y⟩,
         none)) ∧
    (¬crossedMidpointSpec d (m_grid_pos_to_px s p c (m_get_grid_pos g t)) posx posy s p →
      release_step g t d posx posy s p c =
        (g, m_grid_pos_to_px s p c (m_get_grid_pos g t), none)) := by
  rcases availMove_cases g t with h | h
  · rw [hd] at h; exact absurd h hnz
  · rw [hd] at h
    simp only [dirList, List.mem_cons, List.not_mem_nil, or_false] at h
    rcases h with rfl | rfl | rfl | rfl
    · constructor
      · intro hcross
        unfold crossedMidpointSpec at hcross
        norm_num at hcross
        have hsrc : posx < ((m_grid_pos_to_px s p c (m_get_grid_pos g t)).x : ℚ)
            - ((p / 2 : Nat) : ℚ) - ((s / 2 : Nat) : ℚ) := by linarith
        unfold release_step commit_move
        norm_num [hsrc]
      · intro hncross
        unfold crossedMidpointSpec at hncross
        norm_num at hncross
        have hsrc : ¬(posx < ((m_grid_pos_to_px s p c (m_get_grid_pos g t)).x : ℚ)
            - ((p / 2 : Nat) : ℚ) - ((s / 2 : Nat) : ℚ)) := by
          intro hlt; apply absurd hncross; push_neg; linarith
        unfold release_step
        norm_num [hsrc]
    · constructor
      · intro hcross
        unfold crossedMidpointSpec at hcross
        norm_num at hcross
        have hsrc : posx > ((m_grid_pos_to_px s p c (m_get_grid_pos g t)).x : ℚ)
            + ((p / 2 : Nat) : ℚ) + ((s / 2 : Nat) : ℚ) := by linarith
        unfold release_step commit_move
        norm_num [hsrc]
      · intro hncross
        unfold crossedMidpointSpec at hncross
        norm_num at hncross
        have hsrc : ¬(posx > ((m_grid_pos_to_px s p c (m_get_grid_pos g t)).x : ℚ)
            + ((p / 2 : Nat) : ℚ) + ((s / 2 : Nat) : ℚ)) := by
          intro hlt; apply absurd hncross; push_neg; linarith
        unfold release_step
        norm_num [hsrc]
    · constructor
      · intro hcross
        unfold crossedMidpointSpec at hcross
        norm_num at hcross
        have hsrc : posy < ((m_grid_pos_to_px s p c (m_get_grid_pos g t)).y : ℚ)
            - ((p / 2 : Nat) : ℚ) - ((s / 2 : Nat) : ℚ) := by linarith
        unfold release_step commit_move
        norm_num [hsrc]
      · intro hncross
        unfold crossedMidpointSpec at hncross
        norm_num at hncross
        have hsrc : ¬(posy < ((m_grid_pos_to_px s p c (m_get_grid_pos g t)).y : ℚ)
            - ((p / 2 : Nat) : ℚ) - ((s / 2 : Nat) : ℚ)) := by
          intro hlt; apply absurd hncross; push_neg; linarith
        unfold release_step
        norm_num [hsrc]
    · constructor
      · intro hcross
        unfold crossedMidpointSpec at hcross
        norm_num at hcross
        have hsrc : posy > ((m_grid_pos_to_px s p c (m_get_grid_pos g t)).y : ℚ)
            + ((p / 2 : Nat) : ℚ) + ((s / 2 : Nat) : ℚ) := by linarith
        unfold release_step commit_move
        norm_num [hsrc]
      · intro hncross
        unfold crossedMidpointSpec at hncross
        norm_num at hncross
        have hsrc : ¬(posy > ((m_grid_pos_to_px s p c (m_get_grid_pos g t)).y : ℚ)
            + ((p / 2 : Nat) : ℚ) + ((s / 2 : Nat) : ℚ)) := by
          intro hlt; apply absurd hncross; push_neg; linarith
        unfold release_step
        norm_num [hsrc]

theorem claim_C2_witness :
    release_step solvedGrid 5 ⟨0, 1⟩ 0 1000 100 10 ⟨0, 0⟩ =
      (commit_move solvedGrid 5 ⟨0, 1⟩,
       m_grid_pos_to_px 100 10 ⟨0, 0⟩
         ⟨(m_get_grid_pos solvedGrid 5).x + (⟨0, 1⟩ : V2).x,
          (m_get_grid_pos solvedGrid 5).y + (⟨0, 1⟩ : V2).y⟩,
       none) :=
  (claim_C2 solvedGrid 5 ⟨0, 1⟩ 0 1000 100 10 ⟨0, 0⟩ (by decide) (by decide)).1
    (by
      have h5 : m_get_grid_pos solvedGrid 5 = ⟨2, 1⟩ := by decide
      unfold crossedMidpointSpec m_grid_pos_to_px
      rw [h5]
      norm_num)

/-- Claim C3: for every grid satisfying the invariant and every tile id
`0..7`, the legal-move query returns a nonzero unit direction iff the EMPTY
cell is orthogonally adjacent to the tile's cell, and the direction then
points from the tile's cell toward the EMPTY cell; in particular on the
solved grid tile 4 has no legal move, tile 5 moves down `(0, 1)` and tile 7
moves right `(1, 0)`. -/
theorem claim_C3 :
    (∀ (g : Grid) (t : Int), invariant g → 0 ≤ t → t < 8 →
      ((get_available_move g t ≠ ⟨0, 0⟩ ↔
          adjV (m_get_grid_pos g t) (m_get_grid_pos g (-1))) ∧
        (get_available_move g t ≠ ⟨0, 0⟩ →
          get_available_move g t ∈ dirList ∧
          (⟨(m_get_grid_pos g t).x + (get_available_move g t).x,
            (m_get_grid_pos g t).y + (get_available_move g t).y⟩ : V2) =
            m_get_grid_pos g (-1)))) ∧
    get_available_move solvedGrid 4 = ⟨0, 0⟩ ∧
    get_available_move solvedGrid 5 = ⟨0, 1⟩ ∧
    get_available_move solvedGrid 7 = ⟨1, 0⟩ :=
  ⟨fun g t hg h0 h8 => avail_spec g hg t h0 h8, by decide, by decide, by decide⟩

theorem claim_C3_witness :
    (get_available_move solvedGrid 5 ≠ ⟨0, 0⟩ ↔
      adjV (m_get_grid_pos solvedGrid 5) (m_get_grid_pos solvedGrid (-1))) ∧
    (get_available_move solvedGrid 5 ≠ ⟨0, 0⟩ →
      get_available_move solvedGrid 5 ∈ dirList ∧
      (⟨(m_get_grid_pos solvedGrid 5).x + (get_available_move solvedGrid 5).x,
        (m_get_grid_pos solvedGrid 5).y + (get_available_move solvedGrid 5).y⟩ : V2) =
        m_get_grid_pos solvedGrid (-1)) :=
  claim_C3.1 solvedGrid 5 (by decide) (by decide) (by decide)

/-- Claim C4: the win check reports solved iff every tile id `i` occupies
the cell whose row-major index equals `i`; under the invariant this holds
exactly for the row-major identity arrangement with EMPTY last, and it is
false for every grid obtained from that arrangement by swapping the contents
of two distinct cells. -/
theorem claim_C4 :
    (∀ g : Grid, is_solved g = true ↔ ∀ i : Int, 0 ≤ i → i < 8 →
        (m_get_grid_pos g i).y * 3 + (m_get_grid_pos g i).x = i) ∧
    (∀ g : Grid, invariant g → (is_solved g = true ↔ gridEq g solvedGrid)) ∧
    (∀ p ∈ scanList, ∀ q ∈ scanList, p ≠ q →
        is_solved (swapCells solvedGrid p q) = false) :=
  ⟨is_solved_iff, is_solved_eq_solvedGrid, by decide⟩

theorem claim_C4_witness :
    (is_solved solvedGrid = true ↔ gridEq solvedGrid solvedGrid) ∧
    is_solved (swapCells solvedGrid ⟨0, 0⟩ ⟨1, 0⟩) = false :=
  ⟨claim_C4.2.1 solvedGrid (by decide),
   claim_C4.2.2 ⟨0, 0⟩ (by decide) ⟨1, 0⟩ (by decide) (by decide)⟩

/-- Claim C5: the candidate set of each shuffle step excludes the previous
EMPTY position (`last_swap`), so a later step never chooses the cell whose
tile was just slid, and two consecutive steps never swap the same pair of
cells back: after a successful step the recorded `last_swap` is the old
EMPTY cell and the new EMPTY cell differs from the old `last_swap`. -/
theorem claim_C5 :
    (∀ (e last : V2), ∀ c ∈ adjacent_positions e last, c ≠ last) ∧
    (∀ (g : Grid) (last : V2) (r : Nat) (g' : Grid) (l' : V2), invariant g →
      shuffle_step (g, last) r = some (g', l') →
      l' = m_get_grid_pos g (-1) ∧ m_get_grid_pos g' (-1) ≠ last) := by
  constructor
  · intro e last c hc
    exact (cands_mem hc).1
  · intro g last r g' l' hg hstep
    obtain ⟨hl', hinv', hmem⟩ := shuffle_step_some hg hstep
    exact ⟨hl', (cands_mem hmem).1⟩

theorem claim_C5_witness : (⟨1, 2⟩ : V2) ≠ ⟨0, 0⟩ :=
  claim_C5.1 ⟨2, 2⟩ ⟨0, 0⟩ ⟨1, 2⟩ (by decide)

/-- Claim C6: each frame while a tile is grabbed with a legal move
direction, the coordinate on the move axis is
`clamp(pointer - drag_offset, min(origin px, destination px),
max(origin px, destination px))` and the coordinate on the orthogonal axis
is exactly the tile's current grid-cell pixel coordinate. -/
theorem claim_C6 (g : Grid) (t : Int) (d : V2) (mouse_position grab_offset : V2)
    (s p : Nat) (c : V2)
    (hd : get_available_move g t = d) (hnz : d ≠ ⟨0, 0⟩) :
    (d.y = 0 →
      drag_update g t d mouse_position grab_offset s p c =
        ⟨clampI (mouse_position.x - grab_offset.x)
            (min (m_grid_pos_to_px s p c (m_get_grid_pos g t)).x
              (m_grid_pos_to_px s p c
                ⟨(m_get_grid_pos g t).x + d.x, (m_get_grid_pos g t).y + d.y⟩).x)
            (max (m_grid_pos_to_px s p c (m_get_grid_pos g t)).x
              (m_grid_pos_to_px s p c
                ⟨(m_get_grid_pos g t).x + d.x, (m_get_grid_pos g t).y + d.y⟩).x),
         (m_grid_pos_to_px s p c (m_get_grid_pos g t)).y⟩) ∧
    (d.x = 0 →
      drag_update g t d mouse_position grab_offset s p c =
        ⟨(m_grid_pos_to_px s p c (m_get_grid_pos g t)).x,
         clampI (mouse_position.y - grab_offset.y)
            (min (m_grid_pos_to_px s p c (m_get_grid_pos g t)).y
              (m_grid_pos_to_px s p c
                ⟨(m_get_grid_pos g t).x + d.x, (m_get_grid_pos g t).y + d.y⟩).y)
            (max (m_grid_pos_to_px s p c (m_get_grid_pos g t)).y
              (m_grid_pos_to_px s p c
                ⟨(m_get_grid_pos g t).x + d.x, (m_get_grid_pos g t).y + d.y⟩).y)⟩) := by
  rcases availMove_cases g t with h | h
  · rw [hd] at h; exact absurd h hnz
  · rw [hd] at h
    simp only [dirList, List.mem_cons, List.not_mem_nil, or_false] at h
    rcases h with rfl | rfl | rfl | rfl <;>
      refine ⟨fun hax => ?_, fun hax => ?_⟩ <;>
        first
          | (exact absurd hax (by decide))
          | (unfold drag_update; norm_num)

theorem claim_C6_witness :
    drag_update solvedGrid 5 ⟨0, 1⟩ ⟨7, 8⟩ ⟨1, 2⟩ 100 10 ⟨0, 0⟩ =
      ⟨(m_grid_pos_to_px 100 10 ⟨0, 0⟩ (m_get_grid_pos solvedGrid 5)).x,
       clampI ((⟨7, 8⟩ : V2).y - (⟨1, 2⟩ : V2).y)
          (min (m_grid_pos_to_px 100 10 ⟨0, 0⟩ (m_get_grid_pos solvedGrid 5)).y
            (m_grid_pos_to_px 100 10 ⟨0, 0⟩
              ⟨(m_get_grid_pos solvedGrid 5).x + (⟨0, 1⟩ : V2).x,
               (m_get_grid_pos solvedGrid 5).y + (⟨0, 1⟩ : V2).y⟩).y)
          (max (m_grid_pos_to_px 100 10 ⟨0, 0⟩ (m_get_grid_pos solvedGrid 5)).y
            (m_grid_pos_to_px 100 10 ⟨0, 0⟩
              ⟨(m_get_grid_pos solvedGrid 5).x + (⟨0, 1⟩ : V2).x,
               (m_get_grid_pos solvedGrid 5).y + (⟨0, 1⟩ : V2).y⟩).y)⟩ :=
  (claim_C6 solvedGrid 5 ⟨0, 1⟩ ⟨7, 8⟩ ⟨1, 2⟩ 100 10 ⟨0, 0⟩ (by decide) (by decide)).2
    (by decide)

/-- Claim C7 (counterexample to the stated iteration bound): iterating
`lazy_smoothing (·) 100 0.1` from `0` has not reached `100` after 40 calls,
nor after 43. -/
theorem claim_C7_counterexample :
    smoothIter 40 ≠ 100 ∧ smoothIter 43 ≠ 100 := by
  constructor
  · rw [smoothIter_closed 40 (by norm_num)]
    have hpos : (0 : ℚ) < (17 / 20 : ℚ) ^ 40 := by positivity
    intro h
    rw [sub_eq_self] at h
    nlinarith
  · rw [smoothIter_closed 43 (by norm_num)]
    have hpos : (0 : ℚ) < (17 / 20 : ℚ) ^ 43 := by positivity
    intro h
    rw [sub_eq_self] at h
    nlinarith

/-- Claim C7 (amended): the smoothing function returns the target unchanged
when `|current - target| < threshold` and otherwise moves 15% of the
remaining distance; `smooth(5, 5, 0.1) = 5`; iterating
`smooth(·, 100, 0.1)` from `0` is strictly increasing, and it reaches
exactly `100` after 44 calls (not within about 40: the 44th call is the
first snap). -/
theorem claim_C7_amended :
    lazy_smoothing 5 5 (0.1 : ℚ) = 5 ∧
    (∀ n : Nat, n < 44 → smoothIter n < smoothIter (n + 1)) ∧
    smoothIter 44 = 100 ∧
    (∀ cur tgt thr : ℚ, |cur - tgt| < thr → lazy_smoothing cur tgt thr = tgt) :=
  ⟨lazy_snap 5 5 (0.1 : ℚ) (by norm_num), smoothIter_strict, smoothIter_44,
   lazy_snap⟩

theorem claim_C7_witness :
    smoothIter 0 < smoothIter 1 ∧ lazy_smoothing 7 7 (0.1 : ℚ) = 7 :=
  ⟨claim_C7_amended.2.1 0 (by norm_num),
   claim_C7_amended.2.2.2 7 7 (0.1 : ℚ) (by norm_num)⟩

/-- Claim C8 (counterexample): initialization with a zero shuffle-step
count is not refused — it succeeds and yields the solved grid (the source
performs no configuration validation at all, and `mix_steps: u32` cannot be
negative). -/
theorem claim_C8_counterexample :
    world_new_grid 0 (fun _ => 0) = some (solvedGrid, ⟨0, 0⟩) := rfl

/-- Claim C8 (amended): initialization performs no configuration
validation and never fails: the shuffle-step count is unsigned (cannot be
negative), a zero count is accepted and produces the solved grid, the tile
size is not checked, and the shuffle loop always returns a grid. -/
theorem claim_C8_amended :
    (∀ oracle : Nat → Nat, world_new_grid 0 oracle = some (solvedGrid, ⟨0, 0⟩)) ∧
    (∀ (n : Nat) (oracle : Nat → Nat), (world_new_grid n oracle).isSome = true) := by
  constructor
  · intro _; rfl
  · intro n oracle
    obtain ⟨st', hmix, _⟩ := mix_some ((List.range n).map oracle) _ mixInv_init
    rw [world_new_grid, hmix]
    rfl

/-- Claim C9: initialization with 0 shuffle steps produces exactly the
solved arrangement, so the solved check is true immediately with no input
processed. -/
theorem claim_C9 :
    (∀ oracle : Nat → Nat, world_new_grid 0 oracle = some (solvedGrid, ⟨0, 0⟩)) ∧
    is_solved solvedGrid = true :=
  ⟨fun _ => rfl, by decide⟩

/-- Claim C10: in every iteration of the shuffle loop the candidate list
built after the exclusion is non-empty (so the random draw over `0..len`
never faces an empty range), and consequently initialization never fails for
any shuffle-step count and any randomness. -/
theorem claim_C10 :
    (∀ st : Grid × V2, mixInv st →
      adjacent_positions (m_get_grid_pos st.1 (-1)) st.2 ≠ []) ∧
    (∀ (n : Nat) (oracle : Nat → Nat), ∃ st : Grid × V2,
      world_new_grid n oracle = some st) := by
  constructor
  · intro st hst
    obtain ⟨he, _, _⟩ := posOf_spec st.1 hst.1 (-1) (Or.inl rfl)
    exact cands_ne_nil he hst.2
  · intro n oracle
    obtain ⟨st', hmix, _⟩ := mix_some ((List.range n).map oracle) _ mixInv_init
    exact ⟨st', by rw [world_new_grid, hmix]⟩

theorem claim_C10_witness :
    adjacent_positions (m_get_grid_pos solvedGrid (-1)) (⟨0, 0⟩ : V2) ≠ [] :=
  claim_C10.1 (solvedGrid, ⟨0, 0⟩) mixInv_init

end SlidingPuzzle
